import Mathlib

/-!
Verification of the Taiwan lottery dataset maintenance scripts
(`scripts/common.py`, `scripts/initialize.py`, `scripts/update.py`)
against their specification, via a shallow embedding of the relevant
routines.

Modelling conventions:

* A stored draw record (a JSON object with fields `period`, `date`,
  `numbers` and an optional `special`) is the structure `Draw`.  The
  canonical date string `YYYY-MM-DD` is modelled by its day number
  (`Nat`): lexicographic comparison of canonical date strings agrees with
  comparison of day numbers, and stepping one calendar day forward
  (`current += timedelta(days=1)`) is `+ 1`.  `draw.get('period', '')` is
  modelled by a plain `String` field where an absent period is the empty
  string, which is exactly how every merge routine reads the field.
* Records of the `update.py` pipeline carry no `period` field; they are
  `URecord`.
* A dataset (a JSON object mapping game name to a list of records) is a
  total function `String → List Draw`; a key absent from the JSON object
  maps to `[]`, matching the `if game_name not in merged:
  merged[game_name] = []` handling in the sources.
* Python `list.sort(key=...)` is stable; it is modelled by
  `List.insertionSort`, which is stable as well.
* The raw-text parsing routines work on `List Char` (the character
  sequence of a CSV cell); dates produced by them are `YMD` triples,
  standing for the formatted `f"{y:04d}-{m:02d}-{d:02d}"` string, which
  the triple determines.
-/

/-- A stored draw record of the `common.py` / `initialize.py` pipelines. -/
structure Draw where
  period : String
  date : Nat
  numbers : List Int
  special : Option Int
  deriving DecidableEq, Repr

/-- A stored draw record of the `update.py` pipeline (no period field). -/
structure URecord where
  date : Nat
  numbers : List Int
  deriving DecidableEq, Repr

/-- The ascending date ordering used by `sort(key=lambda x: x['date'])`. -/
def drawLE (a b : Draw) : Prop := a.date ≤ b.date

instance : DecidableRel drawLE := fun a b => Nat.decLe a.date b.date

instance : IsTotal Draw drawLE := ⟨fun a b => Nat.le_total a.date b.date⟩

instance : IsTrans Draw drawLE := ⟨fun _ _ _ h h2 => Nat.le_trans h h2⟩

/-- The descending date ordering of `update.py`'s
`sort(key=lambda x: x['date'], reverse=True)`. -/
def urecGE (a b : URecord) : Prop := b.date ≤ a.date

instance : DecidableRel urecGE := fun a b => Nat.decLe b.date a.date

instance : IsTotal URecord urecGE := ⟨fun a b => Nat.le_total b.date a.date⟩

instance : IsTrans URecord urecGE := ⟨fun _ _ _ h h2 => Nat.le_trans h2 h⟩

/-- The periods of a list of records, as read by `draw.get('period', '')`. -/
def periodsOf (l : List Draw) : List String := l.map (·.period)

/-- Inner loop of `merge_and_deduplicate` (common.py lines 100-105, same
code at initialize.py lines 786-792): walk the incoming draws in order,
appending every draw whose period is not in the key set and extending the
key set at once; the second component is `added_count`. -/
def mergeLoop (existingPeriods : List String) (cur : List Draw) :
    List Draw → List Draw × Nat
  | [] => (cur, 0)
  | d :: ds =>
    if d.period ∈ existingPeriods then mergeLoop existingPeriods cur ds
    else
      let r := mergeLoop (d.period :: existingPeriods) (cur ++ [d]) ds
      (r.1, r.2 + 1)

/-- Per-game body of `merge_and_deduplicate`: build the period key set from
the game's existing records, run the loop, and re-sort the sequence by date
only when something was added (`if added_count:`). -/
def mergeGame (ex newDraws : List Draw) : List Draw × Nat :=
  if (mergeLoop (periodsOf ex) ex newDraws).2 = 0 then
    mergeLoop (periodsOf ex) ex newDraws
  else
    (List.insertionSort drawLE (mergeLoop (periodsOf ex) ex newDraws).1,
     (mergeLoop (periodsOf ex) ex newDraws).2)

/-- `merge_and_deduplicate` (common.py lines 84-113, duplicated at
initialize.py lines 771-800): process each game of the incoming batch,
skipping games with an empty incoming list, and accumulate the total added
count. -/
def merge_and_deduplicate (existing : String → List Draw) :
    List (String × List Draw) → (String → List Draw) × Nat
  | [] => (existing, 0)
  | (g, ds) :: rest =>
    if ds = [] then merge_and_deduplicate existing rest
    else
      let r := mergeGame (existing g) ds
      let m := merge_and_deduplicate (Function.update existing g r.1) rest
      (m.1, r.2 + m.2)

/-- `merge_data` (update.py lines 455-478): for each game of the new batch,
drop the incoming records whose date already occurs among the game's
existing records (the date set is computed once per game and never
extended), append the rest, and re-sort every nonempty result descending by
date (`reverse=True`).  The function returns the merged dataset; the
`new_count` tally is only logged. -/
def merge_data (existing : String → List URecord) :
    List (String × List URecord) → String → List URecord
  | [] => existing
  | (g, rs) :: rest =>
    let exDates := (existing g).map (·.date)
    let kept := rs.filter (fun r => decide (r.date ∉ exDates))
    let appended := existing g ++ kept
    let sortedRecs := if appended = [] then appended
                      else List.insertionSort urecGE appended
    merge_data (Function.update existing g sortedRecs) rest

theorem mergeLoop_count_zero (ds : List Draw) :
    ∀ (ps : List String) (cur : List Draw),
      (mergeLoop ps cur ds).2 = 0 → (mergeLoop ps cur ds).1 = cur := by
  induction ds with
  | nil => intro ps cur _; rfl
  | cons d ds ih =>
    intro ps cur h
    by_cases hm : d.period ∈ ps
    · simpa [mergeLoop, hm] using ih ps cur (by simpa [mergeLoop, hm] using h)
    · simp [mergeLoop, hm] at h

theorem mergeLoop_grows (ds : List Draw) :
    ∀ (ps : List String) (cur : List Draw) (p : String),
      p ∈ periodsOf cur → p ∈ periodsOf (mergeLoop ps cur ds).1 := by
  induction ds with
  | nil => intro ps cur p hp; simpa [mergeLoop] using hp
  | cons d ds ih =>
    intro ps cur p hp
    by_cases hm : d.period ∈ ps
    · simpa [mergeLoop, hm] using ih ps cur p hp
    · have : p ∈ periodsOf (cur ++ [d]) := by
        simp only [periodsOf, List.map_append, List.mem_append]
        exact Or.inl hp
      simpa [mergeLoop, hm] using ih _ _ p this

theorem mergeLoop_covers (ds : List Draw) :
    ∀ (ps : List String) (cur : List Draw),
      (∀ p ∈ ps, p ∈ periodsOf cur) →
      ∀ d ∈ ds, d.period ∈ periodsOf (mergeLoop ps cur ds).1 := by
  induction ds with
  | nil => intro ps cur _ d hd; cases hd
  | cons d ds ih =>
    intro ps cur hps e he
    by_cases hm : d.period ∈ ps
    · rcases List.mem_cons.mp he with rfl | he
      · simpa [mergeLoop, hm] using mergeLoop_grows ds ps cur e.period (hps _ hm)
      · simpa [mergeLoop, hm] using ih ps cur hps e he
    · have hcur : ∀ p ∈ d.period :: ps, p ∈ periodsOf (cur ++ [d]) := by
        intro p hp
        simp only [periodsOf, List.map_append, List.mem_append, List.map_cons,
          List.mem_cons, List.map_nil] at *
        rcases hp with hp | hp
        · exact Or.inr (Or.inl hp)
        · exact Or.inl (by simpa [periodsOf] using hps p hp)
      rcases List.mem_cons.mp he with rfl | he
      · have hmem : e.period ∈ periodsOf (cur ++ [e]) := by
          simp [periodsOf]
        simpa [mergeLoop, hm] using mergeLoop_grows ds _ _ e.period hmem
      · simpa [mergeLoop, hm] using ih _ _ hcur e he

theorem mergeLoop_skip_all (ds : List Draw) :
    ∀ (ps : List String) (cur : List Draw),
      (∀ d ∈ ds, d.period ∈ ps) → mergeLoop ps cur ds = (cur, 0) := by
  induction ds with
  | nil => intro ps cur _; rfl
  | cons d ds ih =>
    intro ps cur h
    have hm : d.period ∈ ps := h d (by simp)
    simpa [mergeLoop, hm] using ih ps cur (fun e he => h e (by simp [he]))

theorem mergeGame_periods (ex ds : List Draw) (d : Draw) (h : d ∈ ds) :
    d.period ∈ periodsOf (mergeGame ex ds).1 := by
  have base : d.period ∈ periodsOf (mergeLoop (periodsOf ex) ex ds).1 :=
    mergeLoop_covers ds (periodsOf ex) ex (fun p hp => hp) d h
  unfold mergeGame
  split
  · exact base
  · simp only [periodsOf, List.mem_map] at base ⊢
    rcases base with ⟨a, ha, hap⟩
    exact ⟨a, (List.mem_insertionSort drawLE).2 ha, hap⟩

theorem mergeGame_grows (ex ds : List Draw) (p : String)
    (h : p ∈ periodsOf ex) : p ∈ periodsOf (mergeGame ex ds).1 := by
  have base : p ∈ periodsOf (mergeLoop (periodsOf ex) ex ds).1 :=
    mergeLoop_grows ds (periodsOf ex) ex p h
  unfold mergeGame
  split
  · exact base
  · simp only [periodsOf, List.mem_map] at base ⊢
    rcases base with ⟨a, ha, hap⟩
    exact ⟨a, (List.mem_insertionSort drawLE).2 ha, hap⟩

theorem mergeGame_noop (ex ds : List Draw)
    (h : ∀ d ∈ ds, d.period ∈ periodsOf ex) : mergeGame ex ds = (ex, 0) := by
  unfold mergeGame
  rw [mergeLoop_skip_all ds (periodsOf ex) ex h]
  rfl

theorem mergeGame_sorted (ex ds : List Draw)
    (h : List.Sorted drawLE ex) : List.Sorted drawLE (mergeGame ex ds).1 := by
  unfold mergeGame
  split
  · next hz =>
    rw [mergeLoop_count_zero ds (periodsOf ex) ex hz]
    exact h
  · exact List.sorted_insertionSort drawLE _

theorem merge_grows (B : List (String × List Draw)) :
    ∀ (F : String → List Draw) (g p : String),
      p ∈ periodsOf (F g) → p ∈ periodsOf ((merge_and_deduplicate F B).1 g) := by
  induction B with
  | nil => intro F g p hp; exact hp
  | cons gd rest ih =>
    intro F g p hp
    obtain ⟨g', ds⟩ := gd
    by_cases hds : ds = []
    · simpa [merge_and_deduplicate, hds] using ih F g p hp
    · have : p ∈ periodsOf
          (Function.update F g' (mergeGame (F g') ds).1 g) := by
        by_cases hg : g = g'
        · subst hg
          rw [Function.update_same]
          exact mergeGame_grows (F g) ds p hp
        · rwa [Function.update_noteq hg]
      simpa [merge_and_deduplicate, hds] using ih _ g p this

theorem merge_covers (B : List (String × List Draw)) :
    ∀ (F : String → List Draw), ∀ gd ∈ B, ∀ d ∈ gd.2,
      d.period ∈ periodsOf ((merge_and_deduplicate F B).1 gd.1) := by
  induction B with
  | nil => intro F gd hgd; cases hgd
  | cons gd0 rest ih =>
    intro F gd hgd d hd
    obtain ⟨g', ds⟩ := gd0
    by_cases hds : ds = []
    · rcases List.mem_cons.mp hgd with hgd | hgd
      · subst hgd
        subst hds
        exact absurd hd (by simp)
      · simpa [merge_and_deduplicate, hds] using ih F gd hgd d hd
    · rcases List.mem_cons.mp hgd with hgd | hgd
      · have hd' : d ∈ ds := by rw [hgd] at hd; exact hd
        have hstep : d.period ∈ periodsOf
            (Function.update F g' (mergeGame (F g') ds).1 g') := by
          rw [Function.update_same]
          exact mergeGame_periods (F g') ds d hd'
        have hgoal : d.period ∈ periodsOf
            ((merge_and_deduplicate
              (Function.update F g' (mergeGame (F g') ds).1) rest).1 g') :=
          merge_grows rest _ g' d.period hstep
        rw [hgd]
        simpa [merge_and_deduplicate, hds] using hgoal
      · simpa [merge_and_deduplicate, hds] using ih _ gd hgd d hd

theorem merge_noop (B : List (String × List Draw)) :
    ∀ (F : String → List Draw),
      (∀ gd ∈ B, ∀ d ∈ gd.2, d.period ∈ periodsOf (F gd.1)) →
      merge_and_deduplicate F B = (F, 0) := by
  induction B with
  | nil => intro F _; rfl
  | cons gd0 rest ih =>
    intro F h
    obtain ⟨g', ds⟩ := gd0
    by_cases hds : ds = []
    · simpa [merge_and_deduplicate, hds] using
        ih F (fun gd hgd => h gd (by simp [hgd]))
    · have hnoop : mergeGame (F g') ds = (F g', 0) :=
        mergeGame_noop (F g') ds (fun d hd => h (g', ds) (by simp) d hd)
      have hupd : Function.update F g' (mergeGame (F g') ds).1 = F := by
        rw [hnoop]
        exact Function.update_eq_self g' F
      have hrest : merge_and_deduplicate F rest = (F, 0) :=
        ih F (fun gd hgd => h gd (by simp [hgd]))
      simp [merge_and_deduplicate, hds, hnoop, hupd, hrest]

/-- The ascending date ordering on update.py records (used to state what
`merge_data` does not guarantee). -/
def urecLE (a b : URecord) : Prop := a.date ≤ b.date

instance : DecidableRel urecLE := fun a b => Nat.decLe a.date b.date

/-- Membership in the result of a one-game `merge_data` call: a record is
in the merged game sequence exactly when it was already there or it is an
incoming record whose date is absent from the existing dates. -/
theorem merge_data_single_mem (ex : String → List URecord) (g : String)
    (rs : List URecord) (r : URecord) :
    r ∈ merge_data ex [(g, rs)] g ↔
      r ∈ ex g ∨ (r ∈ rs ∧ r.date ∉ (ex g).map URecord.date) := by
  simp only [merge_data, Function.update_same]
  split
  · next happ =>
    rw [happ]
    constructor
    · intro h; cases h
    · intro h
      have : r ∈ ex g ++ List.filter
          (fun r => decide (r.date ∉ (ex g).map URecord.date)) rs := by
        rcases h with h | ⟨h1, h2⟩
        · exact List.mem_append.2 (Or.inl h)
        · exact List.mem_append.2
            (Or.inr (List.mem_filter.2 ⟨h1, by simpa using h2⟩))
      rw [happ] at this
      exact this
  · rw [List.mem_insertionSort]
    simp only [List.mem_append, List.mem_filter, decide_eq_true_eq]

/-- C1: merging a batch a second time into the dataset it produced changes
nothing and reports an added count of zero. -/
theorem merge_idempotent (E : String → List Draw)
    (B : List (String × List Draw)) :
    merge_and_deduplicate (merge_and_deduplicate E B).1 B
      = ((merge_and_deduplicate E B).1, 0) :=
  merge_noop B (merge_and_deduplicate E B).1
    (fun gd hgd d hd => merge_covers B E gd hgd d hd)

/-- C2 (amended): after a merge through `merge_and_deduplicate`, every
game's sequence is sorted ascending by date, provided the sequences of the
input dataset were sorted ascending by date (the merge re-sorts exactly the
games to which it added records and leaves the others untouched).  The
other merge routine, update.py's `merge_data`, instead sorts the sequences
it touches descending by date; see the counterexample. -/
theorem merge_sorted_ascending (E : String → List Draw)
    (B : List (String × List Draw))
    (h : ∀ g, List.Sorted drawLE (E g)) :
    ∀ g, List.Sorted drawLE ((merge_and_deduplicate E B).1 g) := by
  induction B generalizing E with
  | nil => exact h
  | cons gd rest ih =>
    obtain ⟨g', ds⟩ := gd
    by_cases hds : ds = []
    · simpa [merge_and_deduplicate, hds] using ih E h
    · intro g
      have hupd : ∀ g2, List.Sorted drawLE
          (Function.update E g' (mergeGame (E g') ds).1 g2) := by
        intro g2
        by_cases hg : g2 = g'
        · subst hg
          rw [Function.update_same]
          exact mergeGame_sorted _ ds (h g2)
        · rw [Function.update_noteq hg]
          exact h g2
      simpa [merge_and_deduplicate, hds] using ih _ hupd g

/-- C2 witness: a concrete merge through the theorem. -/
theorem merge_sorted_ascending_w :
    List.Sorted drawLE ((merge_and_deduplicate (fun _ => [])
      [("A", [⟨"p2", 5, [2], none⟩, ⟨"p1", 3, [1], none⟩])]).1 "A") :=
  merge_sorted_ascending (fun _ => [])
    [("A", [⟨"p2", 5, [2], none⟩, ⟨"p1", 3, [1], none⟩])]
    (fun _ => List.sorted_nil) "A"

/-- C2 counterexample: `merge_data` (update.py) leaves the merged game
sequence sorted descending, not ascending, by date. -/
theorem merge_data_descending_cex :
    ¬ List.Sorted urecLE
      (merge_data (fun _ => []) [("A", [⟨1, [1]⟩, ⟨2, [2]⟩])] "A") := by
  decide

/-- C3: merging a batch that contains two records with the same non-empty
period for one game into the empty dataset keeps exactly the first record
of that period and reports one added record. -/
theorem merge_first_wins (g : String) (r1 r2 : Draw)
    (hp : r2.period = r1.period) (_hne : r1.period ≠ "") :
    (merge_and_deduplicate (fun _ => []) [(g, [r1, r2])]).1 g = [r1] ∧
    (merge_and_deduplicate (fun _ => []) [(g, [r1, r2])]).2 = 1 := by
  have hloop : mergeLoop (periodsOf []) [] [r1, r2] = ([r1], 1) := by
    simp [mergeLoop, periodsOf, hp]
  have hgame : mergeGame [] [r1, r2] = ([r1], 1) := by
    simp [mergeGame, hloop, List.insertionSort, List.orderedInsert]
  constructor
  · simp [merge_and_deduplicate, hgame, Function.update_same]
  · simp [merge_and_deduplicate, hgame]

/-- C3 witness: the spec's end-to-end scenario records. -/
theorem merge_first_wins_w :
    (merge_and_deduplicate (fun _ => [])
        [("大樂透", [⟨"2025001", 3, [1, 2, 3, 4, 5, 6], some 7⟩,
                     ⟨"2025001", 3, [7, 8, 9, 10, 11, 12], some 13⟩])]).1 "大樂透"
      = [⟨"2025001", 3, [1, 2, 3, 4, 5, 6], some 7⟩] ∧
    (merge_and_deduplicate (fun _ => [])
        [("大樂透", [⟨"2025001", 3, [1, 2, 3, 4, 5, 6], some 7⟩,
                     ⟨"2025001", 3, [7, 8, 9, 10, 11, 12], some 13⟩])]).2 = 1 :=
  merge_first_wins "大樂透"
    ⟨"2025001", 3, [1, 2, 3, 4, 5, 6], some 7⟩
    ⟨"2025001", 3, [7, 8, 9, 10, 11, 12], some 13⟩ (by decide) (by decide)

/-- C5 (amended): the `update.py` merge routine `merge_data` always uses
the record date as the uniqueness key (its records carry no period at
all): an incoming record whose date is absent from the game's existing
records is added, and one whose date is already present is not.
`merge_and_deduplicate`, by contrast, always keys on the period — all
empty-period records share the single key `""` — so there the claimed
date-keyed behaviour fails; see the counterexample. -/
theorem merge_data_date_key (ex : String → List URecord) (g : String)
    (rs : List URecord) (r : URecord) (hr : r ∈ rs) :
    (r.date ∉ (ex g).map URecord.date → r ∈ merge_data ex [(g, rs)] g) ∧
    (r.date ∈ (ex g).map URecord.date → r ∉ ex g →
      r ∉ merge_data ex [(g, rs)] g) := by
  constructor
  · intro hfresh
    exact (merge_data_single_mem ex g rs r).2 (Or.inr ⟨hr, hfresh⟩)
  · intro hdup hnotex hmem
    rcases (merge_data_single_mem ex g rs r).1 hmem with h | ⟨_, h⟩
    · exact hnotex h
    · exact h hdup

/-- C5 witness: a fresh date is added, a duplicate date is dropped. -/
theorem merge_data_date_key_w :
    ((⟨3, [3]⟩ : URecord) ∈
      merge_data (fun _ => [⟨1, [1]⟩]) [("A", [⟨3, [3]⟩])] "A") ∧
    ((⟨1, [9]⟩ : URecord) ∉
      merge_data (fun _ => [⟨1, [1]⟩]) [("A", [⟨1, [9]⟩])] "A") :=
  ⟨(merge_data_date_key (fun _ => [⟨1, [1]⟩]) "A" [⟨3, [3]⟩] ⟨3, [3]⟩
      (by decide)).1 (by decide),
   (merge_data_date_key (fun _ => [⟨1, [1]⟩]) "A" [⟨1, [9]⟩] ⟨1, [9]⟩
      (by decide)).2 (by decide) (by decide)⟩

/-- C5 counterexample: for a game whose single existing record has an
empty period, an incoming empty-period record with a distinct date is NOT
added by `merge_and_deduplicate` — the empty string is already a used
key — although the claim says date-keyed de-duplication should add it. -/
theorem merge_empty_period_cex :
    (merge_and_deduplicate (fun _ => [⟨"", 1, [1], none⟩])
        [("A", [⟨"", 2, [2], none⟩])]).2 = 0 ∧
    (merge_and_deduplicate (fun _ => [⟨"", 1, [1], none⟩])
        [("A", [⟨"", 2, [2], none⟩])]).1 "A" = [⟨"", 1, [1], none⟩] := by
  constructor <;> decide

/-- One iteration per calendar day (`current += timedelta(days=1)`) under
the day-number date model; the fuel is the number of loop iterations of
the `while current <= latest_date` loop. -/
def daySpanGo : Nat → Nat → List Nat
  | 0, _ => []
  | n + 1, c => c :: daySpanGo n (c + 1)

/-- The expected-dates list of `check_data_coverage` (initialize.py lines
894-900): every calendar day from `a` to `b` inclusive. -/
def daySpan (a b : Nat) : List Nat := daySpanGo (b + 1 - a) a

/-- Missing-day computation of `check_data_coverage` (initialize.py lines
862-911) for one game with at least one record: the expected days run from
`draws[0]` to `draws[-1]`, and a day is missing when no record carries it.
(The `check_data_coverage` variant in common.py lines 175-205 stops after
reporting the covered years and computes no missing days.) -/
def coverage_missing : List Draw → List Nat
  | [] => []
  | d0 :: rest =>
    (daySpan d0.date ((d0 :: rest).getLastD d0).date).filter
      (fun x => decide (x ∉ (d0 :: rest).map Draw.date))

theorem mem_daySpanGo (n : Nat) :
    ∀ (c x : Nat), x ∈ daySpanGo n c ↔ c ≤ x ∧ x < c + n := by
  induction n with
  | zero => intro c x; simp [daySpanGo]
  | succ n ih =>
    intro c x
    simp only [daySpanGo, List.mem_cons, ih (c + 1) x]
    omega

theorem sorted_getLastD_max (l : List Draw) :
    ∀ d0 : Draw, List.Sorted drawLE (d0 :: l) →
      ∀ r ∈ d0 :: l, r.date ≤ ((d0 :: l).getLastD d0).date := by
  induction l with
  | nil =>
    intro d0 _ r hr
    rcases List.mem_cons.mp hr with rfl | hr
    · simp [List.getLastD]
    · cases hr
  | cons a l ih =>
    intro d0 hs r hr
    have hlast : ((d0 :: a :: l).getLastD d0) = ((a :: l).getLastD a) := by
      rw [List.getLastD_cons, List.getLastD_cons]
      cases l <;> rfl
    rw [hlast]
    have hs' : List.Sorted drawLE (a :: l) := (List.sorted_cons.mp hs).2
    rcases List.mem_cons.mp hr with rfl | hr
    · have h1 : drawLE r a := (List.sorted_cons.mp hs).1 a (by simp)
      have h2 : a.date ≤ ((a :: l).getLastD a).date := ih a hs' a (by simp)
      exact Nat.le_trans h1 h2
    · exact ih a hs' r hr

/-- C7: for a game with at least one record, sorted ascending by date, the
coverage check reports exactly the calendar days between the earliest and
the latest record date (inclusive) that appear in no record. -/
theorem coverage_missing_spec (d0 : Draw) (rest : List Draw)
    (hs : List.Sorted drawLE (d0 :: rest)) :
    (∀ r ∈ d0 :: rest,
      d0.date ≤ r.date ∧ r.date ≤ ((d0 :: rest).getLastD d0).date) ∧
    (∀ x, x ∈ coverage_missing (d0 :: rest) ↔
      d0.date ≤ x ∧ x ≤ ((d0 :: rest).getLastD d0).date ∧
        x ∉ (d0 :: rest).map Draw.date) := by
  have hmin : ∀ r ∈ d0 :: rest, d0.date ≤ r.date := by
    intro r hr
    rcases List.mem_cons.mp hr with rfl | hr
    · exact Nat.le_refl _
    · exact (List.sorted_cons.mp hs).1 r hr
  have hmax := sorted_getLastD_max rest d0 hs
  have hle : d0.date ≤ ((d0 :: rest).getLastD d0).date :=
    hmax d0 (by simp)
  constructor
  · exact fun r hr => ⟨hmin r hr, hmax r hr⟩
  · intro x
    simp only [coverage_missing, List.mem_filter, daySpan,
      mem_daySpanGo, decide_eq_true_eq]
    constructor
    · rintro ⟨⟨h1, h2⟩, h3⟩
      exact ⟨h1, by omega, h3⟩
    · rintro ⟨h1, h2, h3⟩
      exact ⟨⟨h1, by omega⟩, h3⟩

/-- C7 witness: one record on day 1 and one on day 3 of a three-day span;
exactly day 2 is reported missing. -/
theorem coverage_missing_spec_w :
    2 ∈ coverage_missing [⟨"p", 1, [1], none⟩, ⟨"q", 3, [2], none⟩] ∧
    coverage_missing [⟨"p", 1, [1], none⟩, ⟨"q", 3, [2], none⟩] = [2] :=
  ⟨((coverage_missing_spec ⟨"p", 1, [1], none⟩ [⟨"q", 3, [2], none⟩]
      (by decide)).2 2).mpr (by decide), by decide⟩

/-- The file-system state touched by `save_data`: the main dataset file
and the backup file, each absent or holding a dataset value. -/
structure FSState (α : Type) where
  dataFile : Option α
  backupFile : Option α
  deriving DecidableEq, Repr

/-- `save_data` of common.py lines 115-129 (the same code is at
initialize.py lines 802-860): when the dataset file exists, copy it to the
backup file, then overwrite the dataset file with the new value. -/
def save_data_with_backup {α : Type} (fs : FSState α) (d : α) : FSState α :=
  { dataFile := some d
    backupFile := match fs.dataFile with
      | some old => some old
      | none => fs.backupFile }

/-- `save_data` of update.py lines 480-511: overwrite the dataset file;
no backup copy is made. -/
def save_data_plain {α : Type} (fs : FSState α) (d : α) : FSState α :=
  { fs with dataFile := some d }

/-- C9 (amended): the `save_data` of common.py / initialize.py retains the
previous dataset contents in the backup file whenever the dataset file
already exists; update.py's `save_data` writes no backup, so there the
prior contents are lost (see the counterexample). -/
theorem save_backup_retained {α : Type} (fs : FSState α) (d old : α)
    (h : fs.dataFile = some old) :
    (save_data_with_backup fs d).backupFile = some old ∧
    (save_data_with_backup fs d).dataFile = some d := by
  simp [save_data_with_backup, h]

/-- C9 witness. -/
theorem save_backup_retained_w :
    (save_data_with_backup (⟨some 0, none⟩ : FSState Nat) 1).backupFile
      = some 0 ∧
    (save_data_with_backup (⟨some 0, none⟩ : FSState Nat) 1).dataFile
      = some 1 :=
  save_backup_retained (⟨some 0, none⟩ : FSState Nat) 1 0 rfl

/-- C9 counterexample: after update.py's `save_data` overwrites an
existing dataset file, the prior contents (here `0`) are held by neither
the dataset file nor the backup file. -/
theorem save_no_backup_cex :
    (save_data_plain (⟨some 0, none⟩ : FSState Nat) 1).dataFile ≠ some 0 ∧
    (save_data_plain (⟨some 0, none⟩ : FSState Nat) 1).backupFile ≠ some 0 := by
  constructor <;> decide

/-- A calendar date triple, standing for the canonical formatted date
string and for a Python datetime of which only year, month and day
matter. -/
structure YMD where
  year : Nat
  month : Nat
  day : Nat
  deriving DecidableEq, Repr

/-- Linear index of a (year, month) pair. -/
def ymIdx (p : Nat × Nat) : Nat := p.1 * 12 + (p.2 - 1)

/-- Month successor, as computed at initialize.py lines 671-674 and again
at lines 688-692. -/
def nextYM (p : Nat × Nat) : Nat × Nat :=
  if p.2 = 12 then (p.1 + 1, 1) else (p.1, p.2 + 1)

/-- The `current <= end` comparison of two first-of-month datetimes:
lexicographic on (year, month). -/
def ymLEb (a b : Nat × Nat) : Bool :=
  decide (a.1 < b.1) || (decide (a.1 = b.1) && decide (a.2 ≤ b.2))

/-- The `while current <= end` month loop of initialize.py lines 685-693.
The fuel argument only bounds the number of iterations; the loop guard is
the `ymLEb` test, so the source's early `if current > end: return []`
coincides with a failing first guard test. -/
def monthLoop : Nat → Nat × Nat → Nat × Nat → List (Nat × Nat)
  | 0, _, _ => []
  | n + 1, cur, e =>
    if ymLEb cur e then cur :: monthLoop n (nextYM cur) e else []

/-- `get_months_to_fetch` (initialize.py lines 656-694): when the latest
local date has year <= 2000 (the `datetime.min` sentinel meaning "no
local data"), fetching starts at the epoch floor 2025-09; otherwise at
the month after the latest date.  Months are produced while
`current <= end`, where `end` is the current month. -/
def get_months_to_fetch (latest today : YMD) : List (Nat × Nat) :=
  let start : Nat × Nat :=
    if latest.year ≤ 2000 then (2025, 9)
    else if latest.month = 12 then (latest.year + 1, 1)
    else (latest.year, latest.month + 1)
  monthLoop (ymIdx (today.year, today.month) + 1 - ymIdx start) start
    (today.year, today.month)

/-- Month pair of a linear index. -/
def ymOfIdx (i : Nat) : Nat × Nat := (i / 12, i % 12 + 1)

/-- Spec-side description, written from the claim's words: the consecutive
(year, month) pairs from `a` through `b` inclusive, empty when `a` is a
later month than `b`. -/
def monthsFromTo (a b : Nat × Nat) : List (Nat × Nat) :=
  (List.range' (ymIdx a) (ymIdx b + 1 - ymIdx a)).map ymOfIdx

/-- A month number between 1 and 12. -/
def validMonth (p : Nat × Nat) : Prop := 1 ≤ p.2 ∧ p.2 ≤ 12

theorem ymOfIdx_ymIdx (p : Nat × Nat) (h : validMonth p) :
    ymOfIdx (ymIdx p) = p := by
  obtain ⟨y, m⟩ := p
  obtain ⟨h1, h2⟩ := h
  simp only [ymOfIdx, ymIdx, Prod.mk.injEq]
  constructor <;> omega

theorem ymIdx_nextYM (p : Nat × Nat) (h : validMonth p) :
    ymIdx (nextYM p) = ymIdx p + 1 := by
  obtain ⟨y, m⟩ := p
  obtain ⟨h1, h2⟩ := h
  simp only [nextYM, ymIdx]
  split <;> (simp_all; omega)

theorem validMonth_nextYM (p : Nat × Nat) (h : validMonth p) :
    validMonth (nextYM p) := by
  obtain ⟨y, m⟩ := p
  obtain ⟨h1, h2⟩ := h
  simp only [nextYM, validMonth]
  split <;> (simp_all; try omega)

theorem ymLEb_iff (a b : Nat × Nat) (ha : validMonth a) (hb : validMonth b) :
    ymLEb a b = true ↔ ymIdx a ≤ ymIdx b := by
  obtain ⟨y1, m1⟩ := a
  obtain ⟨y2, m2⟩ := b
  obtain ⟨ha1, ha2⟩ := ha
  obtain ⟨hb1, hb2⟩ := hb
  simp only [ymLEb, ymIdx, Bool.or_eq_true, Bool.and_eq_true,
    decide_eq_true_eq]
  omega

theorem monthLoop_eq (n : Nat) :
    ∀ (cur e : Nat × Nat), validMonth cur → validMonth e →
      n = ymIdx e + 1 - ymIdx cur →
      monthLoop n cur e = (List.range' (ymIdx cur) n).map ymOfIdx := by
  induction n with
  | zero => intro cur e _ _ _; rfl
  | succ n ih =>
    intro cur e hv hve hn
    have hle : ymIdx cur ≤ ymIdx e := by omega
    have hguard : ymLEb cur e = true := (ymLEb_iff cur e hv hve).2 hle
    rw [List.range'_succ]
    simp only [monthLoop, hguard, if_true, List.map_cons]
    rw [ymOfIdx_ymIdx cur hv,
      ih (nextYM cur) e (validMonth_nextYM cur hv) hve
        (by rw [ymIdx_nextYM cur hv]; omega),
      ymIdx_nextYM cur hv]

/-- C8: the fetch-window list is exactly the consecutive months from the
month after the latest local date through the current month inclusive;
when the year-2000 sentinel says no local date exists it starts at the
epoch floor 2025-09 instead; and a start month later than the current
month yields the empty list. -/
theorem months_to_fetch_spec (latest today : YMD)
    (hl1 : 1 ≤ latest.month) (hl2 : latest.month ≤ 12)
    (ht1 : 1 ≤ today.month) (ht2 : today.month ≤ 12) :
    (2000 < latest.year →
      get_months_to_fetch latest today
        = monthsFromTo (nextYM (latest.year, latest.month))
            (today.year, today.month)) ∧
    (latest.year ≤ 2000 →
      get_months_to_fetch latest today
        = monthsFromTo (2025, 9) (today.year, today.month)) ∧
    (∀ s : Nat × Nat, ymIdx (today.year, today.month) < ymIdx s →
      monthsFromTo s (today.year, today.month) = []) := by
  refine ⟨?_, ?_, ?_⟩
  · intro hy
    show monthLoop _ _ _ = _
    rw [if_neg (by omega)]
    exact monthLoop_eq _ (nextYM (latest.year, latest.month))
      (today.year, today.month)
      (validMonth_nextYM (latest.year, latest.month) ⟨hl1, hl2⟩)
      ⟨ht1, ht2⟩ rfl
  · intro hy
    show monthLoop _ _ _ = _
    rw [if_pos hy]
    exact monthLoop_eq _ (2025, 9) (today.year, today.month)
      (by constructor <;> omega) ⟨ht1, ht2⟩ rfl
  · intro s hs
    have hz : ymIdx (today.year, today.month) + 1 - ymIdx s = 0 := by omega
    simp [monthsFromTo, hz]

/-- C8 witness: a latest date of 2025-11-15 with current month 2026-02
asks for exactly 2025-12, 2026-01 and 2026-02. -/
theorem months_to_fetch_spec_w :
    get_months_to_fetch ⟨2025, 11, 15⟩ ⟨2026, 2, 3⟩
      = monthsFromTo (2025, 12) (2026, 2) ∧
    get_months_to_fetch ⟨2025, 11, 15⟩ ⟨2026, 2, 3⟩
      = [(2025, 12), (2026, 1), (2026, 2)] :=
  ⟨(months_to_fetch_spec ⟨2025, 11, 15⟩ ⟨2026, 2, 3⟩
      (by decide) (by decide) (by decide) (by decide)).1 (by decide),
   by decide⟩

/-- A normalized record of the remote feed (`parse_draw_numbers`,
initialize.py lines 549-591), and equally a stored record whose canonical
date string has been re-read as a date triple. -/
structure ARecord where
  period : String
  date : YMD
  numbers : List Int
  special : Option Int
  deriving DecidableEq, Repr

/-- `crawl_game_incrementally` (initialize.py lines 696-745), with the
remote month query `fetch_game_month_data` modelled as the oracle
`fetchFn` (one call per (year, month) window).  The latest local date is
read from the last existing record (`existing_draws[-1]['date']`); with no
records the `datetime.min` sentinel (year 1) is used, which
`get_months_to_fetch` treats as "no local data".  For every window the
fetched records are filtered against the dates of the (unchanged) existing
records before being accumulated. -/
def crawl_game_incrementally (fetchFn : Nat × Nat → List ARecord)
    (today : YMD) (existing : List ARecord) : List ARecord :=
  let latest : YMD := match existing.getLast? with
    | some r => r.date
    | none => ⟨1, 1, 1⟩
  ((get_months_to_fetch latest today).map (fun ym =>
    (fetchFn ym).filter
      (fun d => decide (d.date ∉ existing.map ARecord.date)))).flatten

/-- C10: every record produced by the incremental crawl has a date that
occurs in none of the game's existing records (records are pre-filtered by
date, regardless of their period). -/
theorem crawl_dates_fresh (fetchFn : Nat × Nat → List ARecord)
    (today : YMD) (existing : List ARecord) (r : ARecord)
    (h : r ∈ crawl_game_incrementally fetchFn today existing) :
    r.date ∉ existing.map ARecord.date := by
  simp only [crawl_game_incrementally, List.mem_flatten, List.mem_map] at h
  obtain ⟨l, ⟨ym, _, rfl⟩, hr⟩ := h
  have hfilter := (List.mem_filter.mp hr).2
  simpa using hfilter

/-- C10 witness: a fetched record whose date equals an existing record's
date is dropped even though its period differs from every existing
period; the other fetched record survives. -/
theorem crawl_dates_fresh_w :
    (⟨"p3", ⟨2025, 9, 25⟩, [3], none⟩ : ARecord).date ∉
      ([⟨"p1", ⟨2025, 9, 23⟩, [1], none⟩] : List ARecord).map ARecord.date ∧
    crawl_game_incrementally
      (fun _ => [⟨"p2", ⟨2025, 9, 23⟩, [2], none⟩,
                 ⟨"p3", ⟨2025, 9, 25⟩, [3], none⟩])
      ⟨2025, 10, 5⟩ [⟨"p1", ⟨2025, 9, 23⟩, [1], none⟩]
      = [⟨"p3", ⟨2025, 9, 25⟩, [3], none⟩] :=
  ⟨crawl_dates_fresh
      (fun _ => [⟨"p2", ⟨2025, 9, 23⟩, [2], none⟩,
                 ⟨"p3", ⟨2025, 9, 25⟩, [3], none⟩])
      ⟨2025, 10, 5⟩ [⟨"p1", ⟨2025, 9, 23⟩, [1], none⟩]
      ⟨"p3", ⟨2025, 9, 25⟩, [3], none⟩ (by decide),
   by decide⟩

/-- The regex digit class on a character. -/
def isDigitC (c : Char) : Bool := decide (48 ≤ c.toNat) && decide (c.toNat ≤ 57)

/-- Value of a digit character. -/
def digitVal (c : Char) : Nat := c.toNat - 48

/-- Numeric value of an all-digit token, as `int(...)` computes it. -/
def digitsVal (cs : List Char) : Nat :=
  cs.foldl (fun a c => a * 10 + digitVal c) 0

/-- ASCII whitespace, for `str.strip()`. -/
def isSpaceC (c : Char) : Bool :=
  decide (c.toNat = 32) || (decide (9 ≤ c.toNat) && decide (c.toNat ≤ 13))

/-- `str.strip()`: drop whitespace from both ends. -/
def stripC (cs : List Char) : List Char :=
  ((cs.dropWhile isSpaceC).reverse.dropWhile isSpaceC).reverse

/-- Python `int(cell)`: strip, then an optional sign followed by at least
one digit; anything else raises, modelled as `none`. -/
def parseIntC (cs0 : List Char) : Option Int :=
  match stripC cs0 with
  | '-' :: ds =>
    if !ds.isEmpty && ds.all isDigitC then some (-(digitsVal ds : Int)) else none
  | '+' :: ds =>
    if !ds.isEmpty && ds.all isDigitC then some ((digitsVal ds : Int)) else none
  | ds =>
    if !ds.isEmpty && ds.all isDigitC then some ((digitsVal ds : Int)) else none

/-- Gregorian leap-year rule, as validated by the datetime constructor. -/
def isLeap (y : Nat) : Bool :=
  decide (y % 4 = 0) && (decide (y % 100 ≠ 0) || decide (y % 400 = 0))

/-- Length of a month, as validated by the datetime constructor. -/
def daysInMonth (y m : Nat) : Nat :=
  if m = 2 then (if isLeap y then 29 else 28)
  else if m = 4 ∨ m = 6 ∨ m = 9 ∨ m = 11 then 30 else 31

/-- The datetime constructor: year in MINYEAR..MAXYEAR, month 1..12, day
within the month; out-of-range values raise ValueError (`none`). -/
def mkValidDate (y m d : Nat) : Option YMD :=
  if 1 ≤ y ∧ y ≤ 9999 ∧ 1 ≤ m ∧ m ≤ 12 ∧ 1 ≤ d ∧ d ≤ daysInMonth y m
  then some ⟨y, m, d⟩ else none

/-- Exactly four digit characters (the CPython strptime pattern for the
4-digit year directive), with value and remaining input. -/
def take4Digits (cs : List Char) : Option (Nat × List Char) :=
  match cs with
  | a :: b :: c :: d :: rest =>
    if isDigitC a && isDigitC b && isDigitC c && isDigitC d then
      some (digitsVal [a, b, c, d], rest)
    else none
  | _ => none

/-- A one- or two-digit field (the CPython strptime patterns for month and
day directives): the maximal digit run must have length 1 or 2, since the
character after the field in every format in use is a non-digit. -/
def take12Digits (cs : List Char) : Option (Nat × List Char) :=
  let ds := cs.takeWhile isDigitC
  if ds.length = 1 ∨ ds.length = 2 then
    some (digitsVal ds, cs.dropWhile isDigitC)
  else none

/-- One character of expected punctuation. -/
def expectC (c : Char) (cs : List Char) : Option (List Char) :=
  match cs with
  | c2 :: rest => if c2 = c then some rest else none
  | [] => none

/-- strptime with a year/month/day layout separated by `sep`
(covers the formats `%Y/%m/%d`, `%Y-%m-%d` and `%Y.%m.%d` of
initialize.py line 252-256). -/
def fmtYMD (sep : Char) (cs : List Char) : Option YMD :=
  match take4Digits cs with
  | none => none
  | some (y, r1) =>
    match expectC sep r1 with
    | none => none
    | some r2 =>
      match take12Digits r2 with
      | none => none
      | some (m, r3) =>
        match expectC sep r3 with
        | none => none
        | some r4 =>
          match take12Digits r4 with
          | some (d, []) => mkValidDate y m d
          | _ => none

/-- strptime with the CJK layout `%Y年%m月%d日`. -/
def fmtCJK (cs : List Char) : Option YMD :=
  match take4Digits cs with
  | none => none
  | some (y, r1) =>
    match expectC '年' r1 with
    | none => none
    | some r2 =>
      match take12Digits r2 with
      | none => none
      | some (m, r3) =>
        match expectC '月' r3 with
        | none => none
        | some r4 =>
          match take12Digits r4 with
          | some (d, [r5]) => if r5 = '日' then mkValidDate y m d else none
          | _ => none

/-- strptime with the layout `%m/%d/%Y`. -/
def fmtMDY (cs : List Char) : Option YMD :=
  match take12Digits cs with
  | none => none
  | some (m, r1) =>
    match expectC '/' r1 with
    | none => none
    | some r2 =>
      match take12Digits r2 with
      | none => none
      | some (d, r3) =>
        match expectC '/' r3 with
        | none => none
        | some r4 =>
          match take4Digits r4 with
          | some (y, []) => mkValidDate y m d
          | _ => none

/-- strptime with the layout `%d/%m/%Y`. -/
def fmtDMY (cs : List Char) : Option YMD :=
  match take12Digits cs with
  | none => none
  | some (d, r1) =>
    match expectC '/' r1 with
    | none => none
    | some r2 =>
      match take12Digits r2 with
      | none => none
      | some (m, r3) =>
        match expectC '/' r3 with
        | none => none
        | some r4 =>
          match take4Digits r4 with
          | some (y, []) => mkValidDate y m d
          | _ => none

/-- The fixed-priority format cascade of parse_taiwan_lottery_csv
(initialize.py lines 250-264): `%Y/%m/%d`, `%Y-%m-%d`, `%Y年%m月%d日`,
`%Y.%m.%d`, `%m/%d/%Y`, `%d/%m/%Y`, first success wins. -/
def tryDateFormats (cs : List Char) : Option YMD :=
  (fmtYMD '/' cs).orElse (fun _ =>
    (fmtYMD '-' cs).orElse (fun _ =>
      (fmtCJK cs).orElse (fun _ =>
        (fmtYMD '.' cs).orElse (fun _ =>
          (fmtMDY cs).orElse (fun _ => fmtDMY cs)))))

/-- The month/day fragment cleanup for the default-year fallback
(initialize.py line 270): `date_str.replace('月', '/').replace('日', '')`. -/
def monthDayClean (cs : List Char) : List Char :=
  (cs.map (fun c => if c = '月' then '/' else c)).filter (fun c => c != '日')

/-- Digit characters of a number as an f-string prints it. -/
def natChars (n : Nat) : List Char := (Nat.repr n).data

/-- Date handling of parse_taiwan_lottery_csv (initialize.py lines
249-283): try every layout in order; on failure, when a default year is
known, retry `f"{default_year}/{month_day}"` against `%Y/%m/%d` where
`month_day` is the cleaned fragment; otherwise the row is dropped. -/
def initDateOf (defaultYear : Option Nat) (cs : List Char) : Option YMD :=
  match tryDateFormats cs with
  | some d => some d
  | none =>
    match defaultYear with
    | some y => fmtYMD '/' (natChars y ++ '/' :: monthDayClean cs)
    | none => none

example : initDateOf none "2025/01/03".data = some ⟨2025, 1, 3⟩ := by decide
example : initDateOf none "2025-1-3".data = some ⟨2025, 1, 3⟩ := by decide
example : initDateOf none "2025年1月3日".data = some ⟨2025, 1, 3⟩ := by decide
example : initDateOf none "01/31/2025".data = some ⟨2025, 1, 31⟩ := by decide
example : initDateOf none "31/01/2025".data = some ⟨2025, 1, 31⟩ := by decide
example : initDateOf none "2025/02/29".data = none := by decide
example : initDateOf (some 2021) "1月3日".data = some ⟨2021, 1, 3⟩ := by decide
example : initDateOf (some 2021) "114/01/03".data = none := by decide

/-- ROCN_YEAR_MAP (common.py lines 44-51, initialize.py lines 62-69): the
explicit alternate-era year table. -/
def rocnYearMap : Nat → Option Nat
  | 110 => some 2021
  | 111 => some 2022
  | 112 => some 2023
  | 113 => some 2024
  | 114 => some 2025
  | 115 => some 2026
  | _ => none

/-- Year classification of detect_year_from_zip_filename (initialize.py
lines 159-174) once the basename has parsed as an integer: 4-digit common
era years 2000-2100 pass through; 3-digit years 100-200 go through the
table, with the `+ 1911` formula as fallback; anything else is rejected. -/
def detect_year_from_int (y : Nat) : Option Nat :=
  if 2000 ≤ y ∧ y ≤ 2100 then some y
  else if 100 ≤ y ∧ y ≤ 200 then
    match rocnYearMap y with
    | some c => some c
    | none => some (y + 1911)
  else none

/-- The date text after update.py's normalization: either rewritten to the
canonical form `f"{y:04d}-{m:02d}-{d:02d}"` (`norm`) or left as the
cleaned text (`raw`). -/
inductive NDate where
  | norm (y m d : Nat) : NDate
  | raw (cs : List Char) : NDate
  deriving DecidableEq, Repr

/-- `re.sub(r'[年月日]', '/', date_str)` on one character. -/
def cjkToSlash (c : Char) : Char :=
  if c = '年' ∨ c = '月' ∨ c = '日' then '/' else c

/-- `re.sub(r'[/]+', '/', date_str)`: collapse each run of slashes. -/
def collapseSlash : List Char → List Char
  | [] => []
  | [c] => [c]
  | a :: b :: rest =>
    if a = '/' ∧ b = '/' then collapseSlash (b :: rest)
    else a :: collapseSlash (b :: rest)

/-- Split on the slash separators (so that the full-anchored regexes of
update.py lines 402 and 408 amount to length-and-digit tests on exactly
three fields). -/
def splitSlash : List Char → List (List Char)
  | [] => [[]]
  | c :: rest =>
    if c = '/' then [] :: splitSlash rest
    else
      match splitSlash rest with
      | [] => [[c]]
      | p :: ps => (c :: p) :: ps

/-- An all-digit token. -/
def allDigits (cs : List Char) : Bool := cs.all isDigitC

/-- A `\d{1,2}` field. -/
def okMD (cs : List Char) : Bool :=
  (decide (cs.length = 1) || decide (cs.length = 2)) && allDigits cs

/-- Date normalization of parse_csv_file (update.py lines 392-412): strip,
rewrite the CJK date markers to slashes, collapse slash runs; a
`\d{3}/\d{1,2}/\d{1,2}` match is an alternate-era date (year + 1911), a
`\d{4}/\d{1,2}/\d{1,2}` match is already common era; any other text is
left as it stands (and still accepted downstream when nonempty). -/
def upDateOf (cs0 : List Char) : NDate :=
  match splitSlash (collapseSlash ((stripC cs0).map cjkToSlash)) with
  | [p0, p1, p2] =>
    if decide (p0.length = 3) && allDigits p0 && okMD p1 && okMD p2 then
      NDate.norm (digitsVal p0 + 1911) (digitsVal p1) (digitsVal p2)
    else if decide (p0.length = 4) && allDigits p0 && okMD p1 && okMD p2 then
      NDate.norm (digitsVal p0) (digitsVal p1) (digitsVal p2)
    else NDate.raw (collapseSlash ((stripC cs0).map cjkToSlash))
  | _ => NDate.raw (collapseSlash ((stripC cs0).map cjkToSlash))

example : upDateOf "114/01/03".data = NDate.norm 2025 1 3 := by decide
example : upDateOf "2025/01/03".data = NDate.norm 2025 1 3 := by decide
example : upDateOf "114年1月3日".data = NDate.raw "114/1/3/".data := by decide
example : upDateOf "hello".data = NDate.raw "hello".data := by decide

/-- C6 counterexample: in the initialize.py CSV parser the claim's own
instance fails — the era-relative date text `114/01/03` does not
normalize to a date in common-era year 2025; no layout of the cascade
accepts a 3-digit year (the strptime 4-digit year directive), the
default-year fallback cannot absorb the 3-field fragment either, and the
row is dropped. -/
theorem init_roc_date_cex :
    initDateOf (some 2021) "114/01/03".data = none ∧
    initDateOf none "114/01/03".data = none ∧
    initDateOf (some 2021) "114/01/03".data ≠ some ⟨2025, 1, 3⟩ := by
  refine ⟨by decide, by decide, by decide⟩

/-- The character of a decimal digit. -/
def digitChar (n : Nat) : Char := Char.ofNat (48 + n)

/-- The one- or two-character rendering of a number up to 99 (a month or
day token as it appears in raw date text). -/
def natChars2 (n : Nat) : List Char :=
  if n < 10 then [digitChar n] else [digitChar (n / 10), digitChar (n % 10)]

/-- The three-character rendering of a 3-digit year token. -/
def natChars3 (n : Nat) : List Char :=
  [digitChar (n / 100), digitChar (n / 10 % 10), digitChar (n % 10)]

/-- The four-character rendering of a 4-digit year token. -/
def natChars4 (n : Nat) : List Char :=
  [digitChar (n / 1000), digitChar (n / 100 % 10), digitChar (n / 10 % 10),
   digitChar (n % 10)]

theorem toNat_digitChar (n : Nat) (h : n < 10) :
    (digitChar n).toNat = 48 + n := by
  interval_cases n <;> decide

theorem isDigitC_digitChar (n : Nat) (h : n < 10) :
    isDigitC (digitChar n) = true := by
  interval_cases n <;> decide

theorem digitVal_digitChar (n : Nat) (h : n < 10) :
    digitVal (digitChar n) = n := by
  unfold digitVal
  rw [toNat_digitChar n h]
  omega

theorem isSpaceC_of_digit (c : Char) (h : isDigitC c = true) :
    isSpaceC c = false := by
  simp only [isDigitC, Bool.and_eq_true, decide_eq_true_eq] at h
  cases hb : isSpaceC c
  · rfl
  · exfalso
    simp only [isSpaceC, Bool.or_eq_true, Bool.and_eq_true,
      decide_eq_true_eq] at hb
    omega

theorem cjk_of_digit (c : Char) (h : isDigitC c = true) :
    cjkToSlash c = c := by
  simp only [isDigitC, Bool.and_eq_true, decide_eq_true_eq] at h
  unfold cjkToSlash
  rw [if_neg]
  rintro (rfl | rfl | rfl)
  · exact absurd h (by decide)
  · exact absurd h (by decide)
  · exact absurd h (by decide)

theorem ne_slash_of_digit (c : Char) (h : isDigitC c = true) : c ≠ '/' := by
  simp only [isDigitC, Bool.and_eq_true, decide_eq_true_eq] at h
  rintro rfl
  exact absurd h (by decide)

theorem dropWhile_false (p : Char → Bool) (cs : List Char)
    (h : ∀ c ∈ cs, p c = false) : cs.dropWhile p = cs := by
  cases cs with
  | nil => rfl
  | cons a l => simp [List.dropWhile_cons, h a (List.mem_cons_self a l)]

theorem stripC_noop (cs : List Char) (h : ∀ c ∈ cs, isSpaceC c = false) :
    stripC cs = cs := by
  unfold stripC
  rw [dropWhile_false _ cs h,
    dropWhile_false _ _ (fun c hc => h c (by simpa using hc)),
    List.reverse_reverse]

theorem map_cjk_noop (cs : List Char)
    (h : ∀ c ∈ cs, isDigitC c = true ∨ c = '/') :
    cs.map cjkToSlash = cs := by
  induction cs with
  | nil => rfl
  | cons a l ih =>
    have hh : cjkToSlash a = a := by
      rcases h a (by simp) with ha | rfl
      · exact cjk_of_digit a ha
      · decide
    simp [hh, ih (fun c hc => h c (by simp [hc]))]

/-- No two adjacent slashes. -/
def noDupSlash : List Char → Bool
  | [] => true
  | [_] => true
  | a :: b :: rest => !(a == '/' && b == '/') && noDupSlash (b :: rest)

theorem collapse_of_noDup (cs : List Char) (h : noDupSlash cs = true) :
    collapseSlash cs = cs := by
  induction cs with
  | nil => rfl
  | cons a l ih =>
    cases l with
    | nil => rfl
    | cons b rest =>
      simp only [noDupSlash, Bool.and_eq_true] at h
      obtain ⟨h1, h2⟩ := h
      simp only [collapseSlash]
      rw [if_neg, ih h2]
      rintro ⟨rfl, rfl⟩
      simp at h1

theorem nds_digits_prefix (xs : List Char) :
    ∀ ys, (∀ c ∈ xs, isDigitC c = true) → noDupSlash ys = true →
      noDupSlash (xs ++ ys) = true := by
  induction xs with
  | nil => intro ys _ h; simpa using h
  | cons a l ih =>
    intro ys hd hy
    have htail : noDupSlash (l ++ ys) = true :=
      ih ys (fun c hc => hd c (by simp [hc])) hy
    have hslash : (a == '/') = false := by
      rw [beq_eq_false_iff_ne]
      exact ne_slash_of_digit a (hd a (by simp))
    cases hl : l ++ ys with
    | nil =>
      show noDupSlash (a :: (l ++ ys)) = true
      rw [hl]
      rfl
    | cons b rest =>
      show noDupSlash (a :: (l ++ ys)) = true
      rw [hl]
      rw [hl] at htail
      simp [noDupSlash, hslash, htail]

theorem nds_slash_cons (b : Char) (rest : List Char)
    (hb : isDigitC b = true) (h : noDupSlash (b :: rest) = true) :
    noDupSlash ('/' :: b :: rest) = true := by
  have hslash : (b == '/') = false := by
    rw [beq_eq_false_iff_ne]
    exact ne_slash_of_digit b hb
  simp [noDupSlash, hslash, h]

theorem splitSlash_no_slash (xs : List Char) (h : ∀ c ∈ xs, c ≠ '/') :
    splitSlash xs = [xs] := by
  induction xs with
  | nil => rfl
  | cons a l ih =>
    simp only [splitSlash]
    rw [if_neg (h a (by simp)), ih (fun c hc => h c (by simp [hc]))]

theorem splitSlash_append (xs ys : List Char) (h : ∀ c ∈ xs, c ≠ '/') :
    splitSlash (xs ++ '/' :: ys) = xs :: splitSlash ys := by
  induction xs with
  | nil => simp [splitSlash]
  | cons a l ih =>
    simp only [List.cons_append, splitSlash]
    rw [if_neg (h a (by simp))]
    simp only [List.append_eq]
    rw [ih (fun c hc => h c (by simp [hc]))]

theorem digitsVal_one (a : Char) : digitsVal [a] = digitVal a := by
  simp [digitsVal]

theorem digitsVal_two (a b : Char) :
    digitsVal [a, b] = 10 * digitVal a + digitVal b := by
  simp [digitsVal]
  omega

theorem digitsVal_three (a b c : Char) :
    digitsVal [a, b, c] = 100 * digitVal a + 10 * digitVal b + digitVal c := by
  simp [digitsVal]
  omega

theorem digitsVal_four (a b c d : Char) :
    digitsVal [a, b, c, d]
      = 1000 * digitVal a + 100 * digitVal b + 10 * digitVal c + digitVal d := by
  simp [digitsVal]
  omega

theorem digitsVal_natChars2 (n : Nat) (h : n ≤ 99) :
    digitsVal (natChars2 n) = n := by
  by_cases h10 : n < 10
  · simp only [natChars2, h10, if_true]
    rw [digitsVal_one, digitVal_digitChar n h10]
  · simp only [natChars2, h10, if_false]
    rw [digitsVal_two, digitVal_digitChar _ (by omega),
      digitVal_digitChar _ (by omega)]
    omega

theorem digitsVal_natChars3 (n : Nat) (h : n ≤ 999) :
    digitsVal (natChars3 n) = n := by
  unfold natChars3
  rw [digitsVal_three, digitVal_digitChar _ (by omega),
    digitVal_digitChar _ (by omega), digitVal_digitChar _ (by omega)]
  omega

theorem digitsVal_natChars4 (n : Nat) (h : n ≤ 9999) :
    digitsVal (natChars4 n) = n := by
  unfold natChars4
  rw [digitsVal_four, digitVal_digitChar _ (by omega),
    digitVal_digitChar _ (by omega), digitVal_digitChar _ (by omega),
    digitVal_digitChar _ (by omega)]
  omega

theorem natChars2_digits (n : Nat) (h : n ≤ 99) :
    ∀ c ∈ natChars2 n, isDigitC c = true := by
  intro c hc
  by_cases h10 : n < 10
  · simp only [natChars2, h10, if_true, List.mem_cons, List.not_mem_nil,
      or_false] at hc
    subst hc
    exact isDigitC_digitChar n h10
  · simp only [natChars2, h10, if_false, List.mem_cons, List.not_mem_nil,
      or_false] at hc
    rcases hc with rfl | rfl
    · exact isDigitC_digitChar _ (by omega)
    · exact isDigitC_digitChar _ (by omega)

theorem natChars3_digits (n : Nat) (h : n ≤ 999) :
    ∀ c ∈ natChars3 n, isDigitC c = true := by
  intro c hc
  simp only [natChars3, List.mem_cons, List.not_mem_nil, or_false] at hc
  rcases hc with rfl | rfl | rfl
  · exact isDigitC_digitChar _ (by omega)
  · exact isDigitC_digitChar _ (by omega)
  · exact isDigitC_digitChar _ (by omega)

theorem natChars4_digits (n : Nat) (h : n ≤ 9999) :
    ∀ c ∈ natChars4 n, isDigitC c = true := by
  intro c hc
  simp only [natChars4, List.mem_cons, List.not_mem_nil, or_false] at hc
  rcases hc with rfl | rfl | rfl | rfl
  · exact isDigitC_digitChar _ (by omega)
  · exact isDigitC_digitChar _ (by omega)
  · exact isDigitC_digitChar _ (by omega)
  · exact isDigitC_digitChar _ (by omega)

theorem natChars2_ne_nil (n : Nat) : natChars2 n ≠ [] := by
  by_cases h10 : n < 10 <;> simp [natChars2, h10]

theorem okMD_natChars2 (n : Nat) (h : n ≤ 99) :
    okMD (natChars2 n) = true := by
  by_cases h10 : n < 10
  · simp [natChars2, h10, okMD, allDigits, isDigitC_digitChar n h10]
  · have ha := isDigitC_digitChar (n / 10) (by omega)
    have hb := isDigitC_digitChar (n % 10) (by omega)
    simp [natChars2, h10, okMD, allDigits, ha, hb]

theorem allDigits_natChars3 (n : Nat) (h : n ≤ 999) :
    allDigits (natChars3 n) = true := by
  simp only [allDigits, List.all_eq_true]
  exact natChars3_digits n h

theorem allDigits_natChars4 (n : Nat) (h : n ≤ 9999) :
    allDigits (natChars4 n) = true := by
  simp only [allDigits, List.all_eq_true]
  exact natChars4_digits n h

theorem upDateOf_three_fields (p0 p1 p2 : List Char)
    (h0 : ∀ c ∈ p0, isDigitC c = true) (h1 : ∀ c ∈ p1, isDigitC c = true)
    (h2 : ∀ c ∈ p2, isDigitC c = true) (n1 : p1 ≠ []) (n2 : p2 ≠ []) :
    upDateOf (p0 ++ '/' :: (p1 ++ '/' :: p2)) =
      (if decide (p0.length = 3) && allDigits p0 && okMD p1 && okMD p2 then
        NDate.norm (digitsVal p0 + 1911) (digitsVal p1) (digitsVal p2)
      else if decide (p0.length = 4) && allDigits p0 && okMD p1 && okMD p2 then
        NDate.norm (digitsVal p0) (digitsVal p1) (digitsVal p2)
      else NDate.raw (p0 ++ '/' :: (p1 ++ '/' :: p2))) := by
  have hgood : ∀ c ∈ p0 ++ '/' :: (p1 ++ '/' :: p2),
      isDigitC c = true ∨ c = '/' := by
    intro c hc
    simp only [List.mem_append, List.mem_cons] at hc
    rcases hc with hc | rfl | hc | rfl | hc
    · exact Or.inl (h0 c hc)
    · exact Or.inr rfl
    · exact Or.inl (h1 c hc)
    · exact Or.inr rfl
    · exact Or.inl (h2 c hc)
  have hspace : ∀ c ∈ p0 ++ '/' :: (p1 ++ '/' :: p2), isSpaceC c = false := by
    intro c hc
    rcases hgood c hc with hd | rfl
    · exact isSpaceC_of_digit c hd
    · decide
  obtain ⟨c1, r1, rfl⟩ : ∃ c r, p1 = c :: r := by
    cases p1 with
    | nil => exact absurd rfl n1
    | cons c r => exact ⟨c, r, rfl⟩
  obtain ⟨c2, r2, rfl⟩ : ∃ c r, p2 = c :: r := by
    cases p2 with
    | nil => exact absurd rfl n2
    | cons c r => exact ⟨c, r, rfl⟩
  have hnds : noDupSlash (p0 ++ '/' :: ((c1 :: r1) ++ '/' :: (c2 :: r2)))
      = true := by
    have hp2 : noDupSlash (c2 :: r2) = true := by
      have := nds_digits_prefix (c2 :: r2) [] h2 rfl
      simpa using this
    have hsp2 : noDupSlash ('/' :: c2 :: r2) = true :=
      nds_slash_cons c2 r2 (h2 c2 (by simp)) hp2
    have hp1 : noDupSlash ((c1 :: r1) ++ '/' :: c2 :: r2) = true :=
      nds_digits_prefix (c1 :: r1) ('/' :: c2 :: r2) h1 hsp2
    have hsp1 : noDupSlash ('/' :: ((c1 :: r1) ++ '/' :: c2 :: r2)) = true :=
      nds_slash_cons c1 (r1 ++ '/' :: c2 :: r2) (h1 c1 (by simp)) hp1
    exact nds_digits_prefix p0 _ h0 hsp1
  simp only [upDateOf]
  rw [stripC_noop _ hspace, map_cjk_noop _ hgood, collapse_of_noDup _ hnds,
    splitSlash_append p0 _ (fun c hc => ne_slash_of_digit c (h0 c hc)),
    splitSlash_append (c1 :: r1) _ (fun c hc => ne_slash_of_digit c (h1 c hc)),
    splitSlash_no_slash (c2 :: r2) (fun c hc => ne_slash_of_digit c (h2 c hc))]

/-- C6 (amended): the 3-digit versus 4-digit year classification holds in
the zip-filename year detector and in update.py's date normalizer — the
explicit table agrees with the `+ 1911` formula on its 110-115 domain, a
3-digit year in 100-200 converts to common era by that formula, a 4-digit
year in 2000-2100 passes through unchanged —, but not in the initialize.py
CSV date cascade, which accepts no 3-digit year at all (see the
counterexample: such rows are dropped). -/
theorem date_year_classification :
    (∀ y, 110 ≤ y → y ≤ 115 → rocnYearMap y = some (y + 1911)) ∧
    (∀ y, 100 ≤ y → y ≤ 200 → detect_year_from_int y = some (y + 1911)) ∧
    (∀ y, 2000 ≤ y → y ≤ 2100 → detect_year_from_int y = some y) ∧
    (∀ y m d, 100 ≤ y → y ≤ 200 → m ≤ 99 → d ≤ 99 →
      upDateOf (natChars3 y ++ '/' :: (natChars2 m ++ '/' :: natChars2 d))
        = NDate.norm (y + 1911) m d) ∧
    (∀ y m d, 2000 ≤ y → y ≤ 2100 → m ≤ 99 → d ≤ 99 →
      upDateOf (natChars4 y ++ '/' :: (natChars2 m ++ '/' :: natChars2 d))
        = NDate.norm y m d) := by
  refine ⟨?_, ?_, ?_, ?_, ?_⟩
  · intro y h1 h2
    interval_cases y <;> rfl
  · intro y h1 h2
    interval_cases y <;> rfl
  · intro y h1 h2
    unfold detect_year_from_int
    rw [if_pos ⟨h1, h2⟩]
  · intro y m d hy1 hy2 hm hd
    rw [upDateOf_three_fields (natChars3 y) (natChars2 m) (natChars2 d)
      (natChars3_digits y (by omega)) (natChars2_digits m hm)
      (natChars2_digits d hd) (natChars2_ne_nil m) (natChars2_ne_nil d)]
    have hcond : (decide ((natChars3 y).length = 3)
        && allDigits (natChars3 y) && okMD (natChars2 m)
        && okMD (natChars2 d)) = true := by
      rw [allDigits_natChars3 y (by omega), okMD_natChars2 m hm,
        okMD_natChars2 d hd]
      rfl
    rw [if_pos hcond, digitsVal_natChars3 y (by omega),
      digitsVal_natChars2 m hm, digitsVal_natChars2 d hd]
  · intro y m d hy1 hy2 hm hd
    rw [upDateOf_three_fields (natChars4 y) (natChars2 m) (natChars2 d)
      (natChars4_digits y (by omega)) (natChars2_digits m hm)
      (natChars2_digits d hd) (natChars2_ne_nil m) (natChars2_ne_nil d)]
    have hcond3 : (decide ((natChars4 y).length = 3)
        && allDigits (natChars4 y) && okMD (natChars2 m)
        && okMD (natChars2 d)) = false := by
      rfl
    have hcond4 : (decide ((natChars4 y).length = 4)
        && allDigits (natChars4 y) && okMD (natChars2 m)
        && okMD (natChars2 d)) = true := by
      rw [allDigits_natChars4 y (by omega), okMD_natChars2 m hm,
        okMD_natChars2 d hd]
      rfl
    rw [if_neg (by simp [hcond3]), if_pos hcond4,
      digitsVal_natChars4 y (by omega), digitsVal_natChars2 m hm,
      digitsVal_natChars2 d hd]

/-- C6 witness: era year 114 maps to 2025 through the table, the detector
and update.py's normalizer; year 2025 passes through unchanged. -/
theorem date_year_classification_w :
    rocnYearMap 114 = some 2025 ∧
    detect_year_from_int 114 = some 2025 ∧
    detect_year_from_int 2025 = some 2025 ∧
    upDateOf (natChars3 114 ++ '/' :: (natChars2 1 ++ '/' :: natChars2 3))
      = NDate.norm 2025 1 3 ∧
    upDateOf (natChars4 2025 ++ '/' :: (natChars2 1 ++ '/' :: natChars2 3))
      = NDate.norm 2025 1 3 ∧
    natChars3 114 ++ '/' :: (natChars2 1 ++ '/' :: natChars2 3)
      = "114/1/3".data :=
  ⟨date_year_classification.1 114 (by decide) (by decide),
   date_year_classification.2.1 114 (by decide) (by decide),
   date_year_classification.2.2.1 2025 (by decide) (by decide),
   date_year_classification.2.2.2.1 114 1 3 (by decide) (by decide)
     (by decide) (by decide),
   date_year_classification.2.2.2.2 2025 1 3 (by decide) (by decide)
     (by decide) (by decide),
   by decide⟩

/-- `number_count` per game, from GAME_API_CONFIG (common.py lines 20-41,
initialize.py lines 29-50); an unknown game yields the
`.get("number_count", 0)` default. -/
def number_count (g : String) : Nat :=
  if g = "大樂透" then 6
  else if g = "威力彩" then 6
  else if g = "今彩539" then 5
  else if g = "3星彩" then 3
  else 0

/-- The fixed number-column window per game (initialize.py lines
289-345). -/
def gameCols (g : String) : List Nat :=
  if g = "大樂透" ∨ g = "威力彩" then [6, 7, 8, 9, 10, 11]
  else if g = "今彩539" then [6, 7, 8, 9, 10]
  else if g = "3星彩" then [6, 7, 8]
  else []

/-- Lower bound of the per-game valid range. -/
def gameLo (g : String) : Int := if g = "3星彩" then 0 else 1

/-- Upper bound of the per-game valid range. -/
def gameHi (g : String) : Int :=
  if g = "大樂透" then 49
  else if g = "威力彩" then 38
  else if g = "今彩539" then 39
  else if g = "3星彩" then 9
  else 0

/-- Number extraction of parse_taiwan_lottery_csv (initialize.py lines
285-345): a column contributes exactly when it exists in the row, parses
as an integer and lies in the game's valid range; everything else is
silently skipped (the emptiness test on the stripped cell is subsumed by
the failing `int(...)`). -/
def extractNums (g : String) (row : List (List Char)) : List Int :=
  (gameCols g).filterMap (fun i =>
    if i < row.length then
      match parseIntC (row.getD i []) with
      | some n => if gameLo g ≤ n ∧ n ≤ gameHi g then some n else none
      | none => none
    else none)

/-- Special-number extraction (initialize.py lines 300-305 and 318-323):
only for the two games with a special number, from column 12 when it is
present and nonblank; a failing `int(...)` leaves it absent.  No range
check is applied. -/
def extractSpecial (g : String) (row : List (List Char)) : Option Int :=
  if (g = "大樂透" ∨ g = "威力彩") ∧ 12 < row.length ∧
      stripC (row.getD 12 []) ≠ [] then
    parseIntC (row.getD 12 [])
  else none

/-- A normalized archive row record of the initialize.py parser (the game
name is carried separately in the source loop; it is kept in the record
here so that the produced record can be compared with its game's
configuration). -/
structure IRow where
  game : String
  period : String
  date : YMD
  numbers : List Int
  special : Option Int
  deriving DecidableEq, Repr

/-- The stripped first cell, i.e. the game name of the row. -/
def rowGame (row : List (List Char)) : String :=
  String.mk (stripC (row.getD 0 []))

/-- The four supported game names (initialize.py line 240). -/
def supportedGame (g : String) : Prop :=
  g = "大樂透" ∨ g = "威力彩" ∨ g = "今彩539" ∨ g = "3星彩"

instance : DecidablePred supportedGame := fun g => by
  unfold supportedGame
  infer_instance

/-- Row handling of parse_taiwan_lottery_csv (initialize.py lines
230-367) for one CSV row, cells given as character sequences: rows that
are too short, carry an unsupported game name, an unparseable date, or a
number count different from the game's `number_count` produce no record;
otherwise the numbers are sorted ascending (except for the positional
game 3星彩) and the record is built. -/
def parse_lottery_row (defaultYear : Option Nat)
    (row : List (List Char)) : Option IRow :=
  if row.length < 7 then none
  else if ¬ supportedGame (rowGame row) then none
  else
    match initDateOf defaultYear (stripC (row.getD 2 [])) with
    | none => none
    | some ymd =>
      if number_count (rowGame row) > 0 ∧
          (extractNums (rowGame row) row).length
            ≠ number_count (rowGame row) then none
      else
        some ⟨rowGame row, String.mk (stripC (row.getD 1 [])), ymd,
          if rowGame row = "3星彩" then extractNums (rowGame row) row
          else List.insertionSort (fun a b : Int => a ≤ b)
            (extractNums (rowGame row) row),
          extractSpecial (rowGame row) row⟩

/-- A data-row record produced by parse_csv_file (update.py lines
429-433): a date text and the surviving numbers. -/
structure URow where
  date : NDate
  numbers : List Int
  deriving DecidableEq, Repr

/-- The `date_str` of a data row of parse_csv_file (update.py lines
391-412): absent date cell means no date text. -/
def upRowDate (dateCell : Option (List Char)) : NDate :=
  match dateCell with
  | some cs => upDateOf cs
  | none => NDate.raw []

/-- Python truthiness of the resulting date text. -/
def ndTruthy : NDate → Bool
  | NDate.norm _ _ _ => true
  | NDate.raw cs => !cs.isEmpty

/-- The numbers of a data row of parse_csv_file (update.py lines
414-426): number cells are modelled as the already-extracted optional
numeric value (`int(float(cell))` of a non-null cell); values in 1..99
are kept, then de-duplicated and sorted ascending
(`sorted(list(set(numbers)))`). -/
def upRowNums (numCells : List (Option Int)) : List Int :=
  List.insertionSort (fun a b : Int => a ≤ b)
    ((numCells.filterMap (fun c =>
      match c with
      | some n => if 1 ≤ n ∧ n ≤ 99 then some n else none
      | none => none)).eraseDups)

/-- Row handling of parse_csv_file (update.py lines 389-433): a record is
produced whenever the date text is nonempty and at least two distinct
in-range numbers survive; no per-game number count is consulted. -/
def parse_csv_row (dateCell : Option (List Char))
    (numCells : List (Option Int)) : Option URow :=
  if ndTruthy (upRowDate dateCell) = true ∧ 2 ≤ (upRowNums numCells).length
  then some ⟨upRowDate dateCell, upRowNums numCells⟩
  else none

/-- C4 (amended): the initialize.py archive-row normalizer rejects every
row whose count of accepted in-range numbers differs from the game's
`number_count` — equivalently, every record it produces carries exactly
`number_count` numbers, never truncated or padded.  The update.py
archive-row normalizer enforces no such bound: it keeps any row with a
date and at least two surviving numbers (see the counterexample, where a
5-number row of the 6-number game is kept). -/
theorem parse_row_exact_count :
    (∀ dy row rec, parse_lottery_row dy row = some rec →
      rec.numbers.length = number_count rec.game) ∧
    (∀ dateCell numCells rec, parse_csv_row dateCell numCells = some rec →
      2 ≤ rec.numbers.length) := by
  constructor
  · intro dy row rec h
    unfold parse_lottery_row at h
    split at h
    · exact Option.noConfusion h
    · split at h
      · exact Option.noConfusion h
      · next h2 =>
        split at h
        · exact Option.noConfusion h
        · split at h
          · exact Option.noConfusion h
          · next hguard =>
            have hsupp : supportedGame (rowGame row) := not_not.mp h2
            have hpos : 0 < number_count (rowGame row) := by
              rcases hsupp with hG | hG | hG | hG <;> rw [hG] <;> decide
            have hlen : (extractNums (rowGame row) row).length
                = number_count (rowGame row) := by
              by_contra hne
              exact hguard ⟨hpos, hne⟩
            injection h with h'
            subst h'
            simp only []
            split
            · exact hlen
            · rw [List.length_insertionSort]
              exact hlen
  · intro dateCell numCells rec h
    unfold parse_csv_row at h
    split at h
    · next hcond =>
      injection h with h'
      subst h'
      exact hcond.2
    · exact Option.noConfusion h

/-- C4 witness: a full 6-number 大樂透 row is accepted with exactly 6
numbers, sorted; a 2-number update.py row keeps its 2 numbers. -/
theorem parse_row_exact_count_w :
    parse_lottery_row none
        ["大樂透".data, "2025001".data, "2025/01/03".data, "".data, "".data,
         "".data, "5".data, "3".data, "1".data, "2".data, "4".data,
         "6".data, "7".data]
      = some ⟨"大樂透", "2025001", ⟨2025, 1, 3⟩, [1, 2, 3, 4, 5, 6], some 7⟩ ∧
    (⟨"大樂透", "2025001", ⟨2025, 1, 3⟩, [1, 2, 3, 4, 5, 6],
        some 7⟩ : IRow).numbers.length
      = number_count (⟨"大樂透", "2025001", ⟨2025, 1, 3⟩, [1, 2, 3, 4, 5, 6],
        some 7⟩ : IRow).game ∧
    2 ≤ (⟨NDate.norm 2025 1 3, [8, 9]⟩ : URow).numbers.length := by
  refine ⟨by decide, ?_, ?_⟩
  · exact parse_row_exact_count.1 none
      ["大樂透".data, "2025001".data, "2025/01/03".data, "".data, "".data,
       "".data, "5".data, "3".data, "1".data, "2".data, "4".data,
       "6".data, "7".data]
      ⟨"大樂透", "2025001", ⟨2025, 1, 3⟩, [1, 2, 3, 4, 5, 6], some 7⟩
      (by decide)
  · exact parse_row_exact_count.2 (some "2025/01/03".data)
      [some 9, some 8] ⟨NDate.norm 2025 1 3, [8, 9]⟩ (by decide)

/-- C4 counterexample: an archive row of the 6-number game carrying only
5 accepted numbers still produces a record — with 5 numbers — through
update.py's normalizer, contradicting the claimed rejection. -/
theorem update_row_five_numbers_cex :
    parse_csv_row (some "2025/01/03".data)
        [some 1, some 2, some 3, some 4, some 5]
      = some ⟨NDate.norm 2025 1 3, [1, 2, 3, 4, 5]⟩ ∧
    (⟨NDate.norm 2025 1 3, [1, 2, 3, 4, 5]⟩ : URow).numbers.length = 5 ∧
    number_count "大樂透" = 6 := by
  refine ⟨by decide, by decide, by decide⟩
